import Mathlib

/-!
Verification of the canopen layer engine and PDO mapper
(ipa320/ros_canopen: canopen_master/include/canopen_master/layer.h and
canopen_master/src/pdo.cpp), as a shallow embedding in Lean.

Severities follow the C++ enum `State { OK = 0, WARN = 1, ERROR = 2,
STALE = 3, UNBOUNDED = 3 }`; they are modelled as `Fin 4` because the
atomic state variable only ever holds one of these four values.
-/

namespace Canopen

/-- Embeds `LayerStatus` (layer.h lines 10-44): a severity plus a reason trail.
`state` is the atomic severity, `reason_` the accumulated reason string. -/
structure LayerStatus where
  state : Fin 4
  reason_ : String
deriving DecidableEq

/-- Embeds `LayerStatus::set` (layer.h lines 18-25): take the maximum severity and
append a non-empty reason with a "; " separator. -/
def LayerStatus.set (st : LayerStatus) (s : Fin 4) (r : String) : LayerStatus :=
  { state := if st.state < s then s else st.state
    reason_ :=
      if r = "" then st.reason_
      else if st.reason_ = "" then r else st.reason_ ++ "; " ++ r }

/-- A freshly constructed `LayerStatus()` : severity OK, empty reason. -/
def LayerStatus.new : LayerStatus := ⟨0, ""⟩

/-- Embeds `LayerStatus::warn` (layer.h line 41). -/
def LayerStatus.warn (st : LayerStatus) (r : String) : LayerStatus := st.set 1 r

/-- Embeds `LayerStatus::error` (layer.h line 42). -/
def LayerStatus.error (st : LayerStatus) (r : String) : LayerStatus := st.set 2 r

/-- Embeds `LayerStatus::stale` (layer.h line 43). -/
def LayerStatus.stale (st : LayerStatus) (r : String) : LayerStatus := st.set 3 r

/-- The updates a layer can apply to a `LayerStatus`: `set` is private, so
`warn`, `error` and `stale` are the only mutators. -/
inductive Upd
  | warnU (r : String)
  | errorU (r : String)
  | staleU (r : String)
deriving DecidableEq

/-- Severity carried by an update. -/
def Upd.sev : Upd → Fin 4
  | .warnU _ => 1
  | .errorU _ => 2
  | .staleU _ => 3

/-- Reason string carried by an update. -/
def Upd.msg : Upd → String
  | .warnU r => r
  | .errorU r => r
  | .staleU r => r

/-- Apply one update to a status. -/
def LayerStatus.apply (st : LayerStatus) : Upd → LayerStatus
  | .warnU r => st.warn r
  | .errorU r => st.error r
  | .staleU r => st.stale r

/-- Apply a sequence of updates in order. -/
def applyAll (us : List Upd) (st : LayerStatus) : LayerStatus :=
  us.foldl LayerStatus.apply st

/-- Reason accumulation exactly as the C++ `set` does it, starting from an
accumulator string. -/
def joinAcc : String → List String → String
  | acc, [] => acc
  | acc, r :: rest => joinAcc (if acc = "" then r else acc ++ "; " ++ r) rest

/-- The claim's reading: the non-empty reasons joined with "; ". -/
def joinSemi : List String → String
  | [] => ""
  | [r] => r
  | r :: s :: rest => r ++ "; " ++ joinSemi (s :: rest)

/-- The non-empty reasons of a sequence of updates, in order. -/
def nonemptyMsgs (us : List Upd) : List String :=
  (us.map Upd.msg).filter (fun r => ¬ r = "")

/-! ## VectorHelper::call (layer.h lines 81-94)

A layer operation is a status transformer. `callAux` is the loop body of
`VectorHelper::call` with `okay_on_start` precomputed; `call` computes
`okay_on_start = status.bounded<Bound>()` first, exactly as the source.
Elements carry a tag (the child index in the concrete instantiations) so the
returned trace records which children were invoked, in order, and the
`Option` result models the returned iterator (`some tag` for an early return
at that element, `none` for `end`). -/

/-- A single layer lifecycle operation, as its effect on the status object. -/
def LayerOp := LayerStatus → LayerStatus

/-- Thread a status through a list of tagged operations, in order. -/
def runOps {α : Type} (l : List (α × LayerOp)) (st : LayerStatus) : LayerStatus :=
  l.foldl (fun s p => p.2 s) st

/-- Loop of `VectorHelper::call`: invoke each operation; after each, if
`okay_on_start` held and the status is no longer bounded, return that
element. -/
def callAux {α : Type} (bound : Fin 4) (okay : Bool) :
    List (α × LayerOp) → LayerStatus → LayerStatus × List α × Option α
  | [], st => (st, [], none)
  | (a, f) :: rest, st =>
    let st1 := f st
    if okay ∧ bound < st1.state then (st1, [a], some a)
    else
      let r := callAux bound okay rest st1
      (r.1, a :: r.2.1, r.2.2)

/-- Embeds `VectorHelper::call<Bound>`: record whether the status was bounded on
entry, then run the loop. The two-argument C++ overload is this with
`Bound = Unbounded`, i.e. `bound = 3`. -/
def call {α : Type} (bound : Fin 4) (l : List (α × LayerOp)) (st : LayerStatus) :
    LayerStatus × List α × Option α :=
  callAux bound (decide (st.state ≤ bound)) l st

/-- Tag a list of operations with consecutive indices starting at `n`. -/
def tagOps : Nat → List LayerOp → List (Nat × LayerOp)
  | _, [] => []
  | n, f :: fs => (n, f) :: tagOps (n + 1) fs

/-- Consecutive indices `n, n+1, ..., n+len-1`. -/
def idxList : Nat → Nat → List Nat
  | _, 0 => []
  | n, len + 1 => n :: idxList (n + 1) len

/-! ## LayerStack (layer.h lines 100-197)

A child layer is modelled by the status transformers of the lifecycle
methods the claims exercise. The engine functions return, besides the
caller's status and the final `run_end` position, the trace of child
invocations (`Ev` events) in execution order. -/

/-- The lifecycle operations of one child `Layer` used by the stack claims. -/
structure Child where
  initOp : LayerOp
  shutdownOp : LayerOp
  haltOp : LayerOp
  readOp : LayerOp

/-- An observed invocation of a lifecycle method on the child with the given
index. -/
inductive Ev
  | initE (i : Nat)
  | shutdownE (i : Nat)
  | haltE (i : Nat)
  | readE (i : Nat)
deriving DecidableEq

/-- Forward phase of `LayerStack::bringup` (layer.h lines 110-117): advance
through the tagged operations, stopping (with the failing index) as soon as
the status is no longer bounded by Warn. Returns the status, the stop index
(`none` when the loop reached the end) and the indices invoked, in order. -/
def bringupFwd : List (Nat × LayerOp) → LayerStatus → LayerStatus × Option Nat × List Nat
  | [], st => (st, none, [])
  | (i, f) :: rest, st =>
    let st1 := f st
    if (1 : Fin 4) < st1.state then (st1, some i, [i])
    else
      let r := bringupFwd rest st1
      (r.1, r.2.1, i :: r.2.2)

/-- Embeds `LayerStack::init` = `bringup(&Layer::init, &Layer::shutdown, status)`
(layer.h lines 104-126, 179-181). On a stop at child `k`, the children
`k-1 .. 0` are unwound via `call` (Unbounded bound) on a throwaway status;
`run_end_` is left at the stop position (`layers.size()` on success).
Returns (status, run_end, event trace). -/
def stackInit (layers : List Child) (st : LayerStatus) : LayerStatus × Nat × List Ev :=
  match bringupFwd (tagOps 0 (layers.map Child.initOp)) st with
  | (st1, none, tr) => (st1, layers.length, tr.map Ev.initE)
  | (st1, some k, tr) =>
    (st1, k, tr.map Ev.initE
      ++ ((call 3 (((tagOps 0 (layers.map Child.shutdownOp)).take k).reverse)
            LayerStatus.new).2.1).map Ev.shutdownE)

/-- Embeds `LayerStack::read` (layer.h lines 128-144) with the live prefix
`[begin, run_end)` of length `r`: `call<Warn>(&Layer::read)` over the
prefix; if it stopped at child `k`, halt from `layers.rbegin()` down to
`reverse_iterator(it)` (i.e. indices `n-1 .. k` of the full vector) on a
fresh throwaway status, escalate that status to Error, and call `read` on
the remaining prefix children `k+1 .. r-1` with it. Returns the caller's
status and the event trace. -/
def stackRead (layers : List Child) (r : Nat) (st : LayerStatus) : LayerStatus × List Ev :=
  match call 1 ((tagOps 0 (layers.map Child.readOp)).take r) st with
  | (st1, tr, none) => (st1, tr.map Ev.readE)
  | (st1, tr, some k) =>
    (st1, tr.map Ev.readE
      ++ ((call 3 (((tagOps 0 (layers.map Child.haltOp)).drop k).reverse)
            LayerStatus.new).2.1).map Ev.haltE
      ++ ((call 3 (((tagOps 0 (layers.map Child.readOp)).take r).drop (k + 1))
            ((call 3 (((tagOps 0 (layers.map Child.haltOp)).drop k).reverse)
              LayerStatus.new).1.error "")).2.1).map Ev.readE)

/-- The identity operation: a layer method that leaves the status alone. -/
def opId : LayerOp := fun st => st

/-- A layer method that escalates the status to Error("boom"). -/
def opBoom : LayerOp := fun st => st.error "boom"

/-- A child whose every method succeeds silently. -/
def childOk : Child := ⟨opId, opId, opId, opId⟩

/-- A child whose `init` fails with Error("boom"). -/
def childBadInit : Child := ⟨opBoom, opId, opId, opId⟩

/-- A child whose `read` fails with Error("boom"). -/
def childBadRead : Child := ⟨opId, opId, opId, opBoom⟩

/-! ## PDOMapper::Buffer (pdo.cpp lines 323-345)

Bytes are `Nat`s (the source's `uint8_t` values; no arithmetic is performed
on them, only copying). -/

/-- Embeds `PDOMapper::Buffer`: a fixed-size byte slab with `empty` (never written
since creation) and `dirty` (written since last consumer read) flags. -/
structure Buffer where
  size : Nat
  bdata : List Nat
  empty : Bool
  dirty : Bool
deriving DecidableEq

/-- Modelled from the spec: the `Buffer` constructor and `clean()` live in
canopen.h, which is not among the sources; per spec §3 and §4.6 a fresh
buffer has `empty = true` (never written) and `dirty = false`, with `size`
bytes of zeroed backing store. -/
def Buffer.mk0 (s : Nat) : Buffer := ⟨s, List.replicate s 0, true, false⟩

/-- Embeds `PDOMapper::Buffer::write(const uint8_t*, size_t)` (pdo.cpp lines
335-345): fatal size mismatch (`none`) when `size > len`; otherwise copy the
first `size` bytes, clear `empty`, set `dirty`. -/
def Buffer.write (bf : Buffer) (b : List Nat) (len : Nat) : Option Buffer :=
  if bf.size > len then none
  else some ⟨bf.size, b.take bf.size, false, true⟩

/-- Embeds `PDOMapper::Buffer::read(uint8_t*, size_t)` (pdo.cpp lines 323-334):
fatal size mismatch when `size > len`; if `empty`, report `false` without
copying; else copy `size` bytes into the output, return the previous
`dirty` flag and clear it. Returns (buffer, output bytes, returned flag). -/
def Buffer.read (bf : Buffer) (out : List Nat) (len : Nat) :
    Option (Buffer × List Nat × Bool) :=
  if bf.size > len then none
  else if bf.empty then some (bf, out, false)
  else some (⟨bf.size, bf.bdata, bf.empty, false⟩,
    bf.bdata.take bf.size ++ out.drop bf.size, bf.dirty)

/-- A consumer-visible buffer operation. -/
inductive BufOp
  | wr (b : List Nat) (len : Nat)
  | rd (len : Nat)

/-- One buffer operation as a state transition (the bytes a `rd` copies out
do not affect the buffer state). -/
def bufStep (bf : Buffer) : BufOp → Option Buffer
  | .wr b len => bf.write b len
  | .rd len => (bf.read (List.replicate len 0) len).map (fun q => q.1)

/-- Run a sequence of buffer operations. -/
def runBuf (bf : Buffer) : List BufOp → Option Buffer
  | [] => some bf
  | op :: ops =>
    match bufStep bf op with
    | some b2 => runBuf b2 ops
    | none => none

/-- Is the operation a read? -/
def isRd : BufOp → Bool
  | .rd _ => true
  | .wr _ _ => false

/-- Is the operation a write? -/
def isWr : BufOp → Bool
  | .rd _ => false
  | .wr _ _ => true

/-- "Some write occurred since the last read": among the operations after
the last `rd` of the trace (the whole trace when it has no `rd`), there is
a `wr`. -/
def writesSinceLastRead (tr : List BufOp) : Bool :=
  ((tr.reverse).takeWhile (fun o => ! isRd o)).any isWr

/-! ## PDO communication / mapping parameters (pdo.cpp lines 34-163) -/

/-- An object-dictionary entry as consumed by the change checks: only
whether its `init_val` is empty matters here (`HoldAny::is_empty`). -/
structure DictEntry where
  init_val : Option Nat
deriving DecidableEq

/-- An object dictionary: a partial map from (index, sub) to entries;
`none` models the `std::out_of_range` throw of `ObjectDict::operator()`. -/
def ObjectDict := Nat → Nat → Option DictEntry

/-- Embeds `check_com_changed` (pdo.cpp lines 46-60): true iff some sub-entry
`0..6` at `com_id` exists and has a non-empty `init_val`; absent sub-entries
are skipped (`catch (std::out_of_range)`). -/
def check_com_changed (dict : ObjectDict) (com_id : Nat) : Bool :=
  (List.range 7).any fun sub =>
    match dict com_id sub with
    | some e => e.init_val.isSome
    | none => false

/-- The call site pdo.cpp line 102: `parse_and_set_mapping` computes
`com_changed = check_com_changed(dict, map_index)` — passing the MAPPING
index, not the communication index. -/
def parse_com_changed (dict : ObjectDict) (com_index map_index : Nat) : Bool :=
  check_com_changed dict map_index

/-- Example dictionary: communication record at 0x1800 with subs 0..6 all
present but with empty init_vals; mapping record at 0x1A00 whose sub 0 has
a non-empty init_val. -/
def exDict : ObjectDict := fun idx sub =>
  if idx = 0x1800 ∧ sub ≤ 6 then some ⟨none⟩
  else if idx = 0x1A00 ∧ sub = 0 then some ⟨some 2⟩
  else none

/-- The mapping loop of `PDO::parse_and_set_mapping` (pdo.cpp lines
115-139) restricted to its dlc/buffer-size accounting: for each mapping
word, `PDOmap::length` is its low byte (pack(1) layout, little endian), the
new buffer's size is `length/8` bytes, `frame.dlc += b->size`, and
`assert(frame.dlc <= 8)` must hold after every step (`none` models an
assertion failure). Returns the final dlc and the buffer sizes in order.
dlc is at most 8 before each addition and each size is at most 31, so the
uint8 member never wraps and plain `Nat` addition is faithful. -/
def pdoMapLoop : List Nat → Nat → List Nat → Option (Nat × List Nat)
  | [], dlc, sizes => some (dlc, sizes.reverse)
  | w :: ws, dlc, sizes =>
    let sz := (w % 256) / 8
    let dlc2 := dlc + sz
    if dlc2 ≤ 8 then pdoMapLoop ws dlc2 (sz :: sizes) else none

/-- Embeds the dlc computation of `parse_and_set_mapping` over the `map_num` mapping
words, starting from `frame.dlc = 0` (pdo.cpp line 115). -/
def parseMappingDlc (words : List Nat) : Option (Nat × List Nat) :=
  pdoMapLoop words 0 []

/-- The transmission-type handling of `TPDO::init` (pdo.cpp lines 228-234):
after reading the dictionary value of the transmission_type entry, write
`1` back to the entry iff `transmission_type > 1 && transmission_type
<= 240`; `none` means no write reaches the device. -/
def tpdoCoerceTT (v : Nat) : Option Nat :=
  if 1 < v ∧ v ≤ 240 then some 1 else none

/-- The RPDO fields used by `sync` and `handleFrame`: the transmission type
(a uint8 value) and the timeout counter (an integer counter declared in
canopen.h, reset by `handleFrame` and counted down by `sync`). -/
structure RPDOState where
  transmission_type : Nat
  timeout : Int
deriving DecidableEq

/-- Embeds `PDOMapper::RPDO::sync` (pdo.cpp lines 265-279): for cyclic types
(1..240 and 0xFC) count the timeout down while positive; when it is found
at zero, warn "RPDO timeout". The RTR send for 0xFC/0xFD touches neither
the state nor the status, so it is omitted. -/
def rpdoSync (s : RPDOState) (st : LayerStatus) : RPDOState × LayerStatus :=
  if (1 ≤ s.transmission_type ∧ s.transmission_type ≤ 240)
      ∨ s.transmission_type = 0xFC then
    if 0 < s.timeout then ({ s with timeout := s.timeout - 1 }, st)
    else if s.timeout = 0 then (s, st.warn "RPDO timeout")
    else (s, st)
  else (s, st)

/-- The RPDO state after `k` frameless sync cycles (each invoked, as each
read cycle is, with a status of its own). -/
def rpdoSyncIter (s : RPDOState) : Nat → RPDOState
  | 0 => s
  | k + 1 => (rpdoSync (rpdoSyncIter s k) LayerStatus.new).1

/-- The status returned by the `k+1`-st frameless sync cycle, starting
from a fresh status. -/
def rpdoSyncStatus (s : RPDOState) (k : Nat) : LayerStatus :=
  (rpdoSync (rpdoSyncIter s k) LayerStatus.new).2

/-- Runs `k` frameless sync cycles threading a single status object through all
of them. -/
def rpdoSyncN : Nat → RPDOState → LayerStatus → RPDOState × LayerStatus
  | 0, s, st => (s, st)
  | k + 1, s, st => rpdoSyncN k (rpdoSync s st).1 (rpdoSync s st).2

/-- The buffer-filling loop of `RPDO::handleFrame` (pdo.cpp lines 282-293):
walk the buffers; whenever the running `offset` plus the buffer's size fits
within the frame's `dlc`, write `size` bytes from `data + offset` into it
and advance `offset`; otherwise leave the buffer AND the offset alone and
continue with the next buffer. Returns the buffers and the final offset.
(`Buffer.write` with `len = size` always succeeds, so `getD` never takes
its default.) -/
def handleFrameLoop (data : List Nat) (dlc : Nat) : List Buffer → Nat → List Buffer × Nat
  | [], off => ([], off)
  | b :: rest, off =>
    if off + b.size ≤ dlc then
      let b2 := (b.write (data.drop off) b.size).getD b
      let r := handleFrameLoop data dlc rest (off + b.size)
      (b2 :: r.1, r.2)
    else
      let r := handleFrameLoop data dlc rest off
      (b :: r.1, r.2)

/-- Embeds `PDOMapper::RPDO::handleFrame` (pdo.cpp lines 281-307): fill the
buffers from the frame data, then, under the PDO mutex, reset the timeout:
`transmission_type + 2` for cyclic types 1..240, `3` for the RTR types
0xFC/0xFD when the stored frame is an RTR request. No status object is
involved anywhere; a short frame only causes buffers to be skipped. -/
def rpdoHandleFrame (s : RPDOState) (isRtr : Bool) (bufs : List Buffer)
    (data : List Nat) (dlc : Nat) : List Buffer × RPDOState :=
  let s2 :=
    if 1 ≤ s.transmission_type ∧ s.transmission_type ≤ 240 then
      { s with timeout := (s.transmission_type : Int) + 2 }
    else if s.transmission_type = 0xFC ∨ s.transmission_type = 0xFD then
      if isRtr then { s with timeout := 3 } else s
    else s
  ((handleFrameLoop data dlc bufs 0).1, s2)

/-- The offset at which the buffer after the given size list would be
written: the offset advances only across buffers that fit. -/
def hfOffset (dlc : Nat) (szs : List Nat) (start : Nat) : Nat :=
  szs.foldl (fun off sz => if off + sz ≤ dlc then off + sz else off) start

-- ## Theorems

theorem set_state (st : LayerStatus) (s : Fin 4) (r : String) :
    (st.set s r).state = max st.state s := by
  have h : ∀ a b : Fin 4, (if a < b then b else a) = max a b := by decide
  simpa [LayerStatus.set] using h st.state s

theorem apply_state (st : LayerStatus) (u : Upd) :
    (st.apply u).state = max st.state u.sev := by
  cases u <;> simp [LayerStatus.apply, LayerStatus.warn, LayerStatus.error,
    LayerStatus.stale, set_state, Upd.sev]

theorem applyAll_state (us : List Upd) : ∀ st : LayerStatus,
    (applyAll us st).state = us.foldl (fun a u => max a u.sev) st.state := by
  induction us with
  | nil => intro st; rfl
  | cons u us ih =>
    intro st
    simp only [applyAll, List.foldl_cons] at *
    rw [ih, apply_state]

theorem apply_reason (st : LayerStatus) (u : Upd) :
    (st.apply u).reason_ =
      if u.msg = "" then st.reason_
      else if st.reason_ = "" then u.msg else st.reason_ ++ "; " ++ u.msg := by
  cases u <;> rfl

theorem applyAll_reason (us : List Upd) : ∀ st : LayerStatus,
    (applyAll us st).reason_ = joinAcc st.reason_ (nonemptyMsgs us) := by
  induction us with
  | nil => intro st; rfl
  | cons u us ih =>
    intro st
    simp only [applyAll, List.foldl_cons, nonemptyMsgs, List.map_cons,
      List.filter_cons] at *
    by_cases h : u.msg = ""
    · simp only [h, if_pos rfl]
      have : (applyAll us (st.apply u)).reason_
          = joinAcc (st.apply u).reason_ (nonemptyMsgs us) := ih (st.apply u)
      simp only [applyAll] at this
      rw [this, apply_reason, if_pos h]
      simp [nonemptyMsgs]
    · have hdec : (decide ¬u.msg = "") = true := by simp [h]
      simp only [hdec, if_pos]
      have : (applyAll us (st.apply u)).reason_
          = joinAcc (st.apply u).reason_ (nonemptyMsgs us) := ih (st.apply u)
      simp only [applyAll] at this
      rw [this, apply_reason, if_neg h]
      simp [joinAcc, nonemptyMsgs]

theorem sep_append_ne_empty (a r : String) : ¬ a ++ "; " ++ r = "" := by
  intro h
  have := congrArg String.length h
  simp [String.length_append] at this
  exact absurd this.1.2 (by decide)

theorem joinAcc_spec (l : List String) : ∀ acc : String,
    (∀ r ∈ l, ¬ r = "") →
    joinAcc acc l =
      if acc = "" then joinSemi l
      else match l with
        | [] => acc
        | _ :: _ => acc ++ "; " ++ joinSemi l := by
  induction l with
  | nil =>
    intro acc _
    by_cases h : acc = "" <;> simp [joinAcc, joinSemi, h]
  | cons r rest ih =>
    intro acc hne
    have hr : ¬ r = "" := hne r (List.mem_cons_self r rest)
    have hrest : ∀ x ∈ rest, ¬ x = "" := fun x hx => hne x (List.mem_cons_of_mem r hx)
    by_cases hacc : acc = ""
    · subst hacc
      have h1 : joinAcc "" (r :: rest) = joinAcc r rest := by simp [joinAcc]
      rw [h1, ih r hrest, if_neg hr, if_pos rfl]
      cases rest with
      | nil => simp [joinSemi]
      | cons s t => simp [joinSemi]
    · have h1 : joinAcc acc (r :: rest) = joinAcc (acc ++ "; " ++ r) rest := by
        simp [joinAcc, hacc]
      rw [h1, ih (acc ++ "; " ++ r) hrest, if_neg (sep_append_ne_empty acc r), if_neg hacc]
      cases rest with
      | nil => simp [joinSemi]
      | cons s t => simp [joinSemi, String.append_assoc]

/-- Claim C3: for every LayerStatus, after any finite sequence of
warn/error/stale updates applied to a fresh status, the severity equals the
maximum of Ok and all severities ever applied (and a single update never
decreases it), and the reason string is the concatenation of exactly the
non-empty reasons passed, in application order, separated by "; ". -/
theorem claim3_status_algebra (us : List Upd) :
    (applyAll us LayerStatus.new).state = us.foldl (fun a u => max a u.sev) 0
    ∧ (applyAll us LayerStatus.new).reason_ = joinSemi (nonemptyMsgs us)
    ∧ ∀ (st : LayerStatus) (u : Upd), st.state ≤ (st.apply u).state := by
  refine ⟨applyAll_state us LayerStatus.new, ?_, ?_⟩
  · rw [applyAll_reason us LayerStatus.new]
    have : LayerStatus.new.reason_ = "" := rfl
    rw [this, joinAcc_spec (nonemptyMsgs us) "" ?_, if_pos rfl]
    intro r hr
    simp only [nonemptyMsgs, List.mem_filter] at hr
    exact fun h => by simpa [h] using hr.2
  · intro st u
    rw [apply_state]
    exact le_max_left _ _

theorem tagOps_length (fs : List LayerOp) : ∀ n, (tagOps n fs).length = fs.length := by
  induction fs with
  | nil => intro n; rfl
  | cons f fs ih => intro n; simp [tagOps, ih]

theorem tagOps_map_fst (fs : List LayerOp) : ∀ n,
    (tagOps n fs).map Prod.fst = idxList n fs.length := by
  induction fs with
  | nil => intro n; rfl
  | cons f fs ih => intro n; simp [tagOps, idxList, ih]

theorem tagOps_take (fs : List LayerOp) : ∀ n k,
    (tagOps n fs).take k = tagOps n (fs.take k) := by
  induction fs with
  | nil => intro n k; simp [tagOps]
  | cons f fs ih =>
    intro n k
    cases k with
    | zero => simp [tagOps]
    | succ k => simp [tagOps, ih]

theorem tagOps_drop (fs : List LayerOp) : ∀ n k,
    (tagOps n fs).drop k = tagOps (n + k) (fs.drop k) := by
  induction fs with
  | nil => intro n k; simp [tagOps]
  | cons f fs ih =>
    intro n k
    cases k with
    | zero => simp [tagOps]
    | succ k =>
      simp only [tagOps, List.drop_succ_cons, ih (n + 1) k]
      congr 1
      omega

theorem not_top_lt (x : Fin 4) : ¬ (3 : Fin 4) < x := by
  revert x; decide

theorem callAux_not_okay {α : Type} (l : List (α × LayerOp)) : ∀ (b : Fin 4) st,
    callAux b false l st = (runOps l st, l.map Prod.fst, none) := by
  induction l with
  | nil => intro b st; rfl
  | cons p rest ih =>
    intro b st
    obtain ⟨a, f⟩ := p
    simp [callAux, runOps, ih b (f st), List.foldl_cons]

theorem callAux_unbounded {α : Type} (l : List (α × LayerOp)) : ∀ okay st,
    callAux 3 okay l st = (runOps l st, l.map Prod.fst, none) := by
  induction l with
  | nil => intro okay st; rfl
  | cons p rest ih =>
    intro okay st
    obtain ⟨a, f⟩ := p
    have : ¬ (okay = true ∧ (3 : Fin 4) < (f st).state) :=
      fun h => not_top_lt _ h.2
    simp only [callAux, if_neg this, ih okay (f st)]
    simp [runOps, List.foldl_cons]

theorem callAux_some_okay {α : Type} (l : List (α × LayerOp)) (b : Fin 4) (st : LayerStatus)
    (a : α) (h : (callAux b false l st).2.2 = some a) : False := by
  rw [callAux_not_okay l b st] at h
  simp at h

theorem callAux_some_split {α : Type} (l : List (α × LayerOp)) : ∀ (b : Fin 4) st st1 tr a,
    st.state ≤ b →
    callAux b true l st = (st1, tr, some a) →
    ∃ l1 f l2, l = l1 ++ (a, f) :: l2 ∧
      (runOps l1 st).state ≤ b ∧ b < (f (runOps l1 st)).state ∧
      tr = l1.map Prod.fst ++ [a] := by
  induction l with
  | nil => intro b st st1 tr a _ h; simp [callAux] at h
  | cons p rest ih =>
    intro b st st1 tr a hst h
    obtain ⟨x, f⟩ := p
    by_cases hc : b < (f st).state
    · rw [callAux, if_pos ⟨rfl, hc⟩] at h
      have h2 : [x] = tr := congrArg (fun q => q.2.1) h
      have h3 : some x = some a := congrArg (fun q => q.2.2) h
      obtain rfl : x = a := Option.some.inj h3
      exact ⟨[], f, rest, by simp, by simpa [runOps] using hst,
        by simpa [runOps] using hc, by simp [h2.symm]⟩
    · rw [callAux, if_neg (fun hand => hc hand.2)] at h
      have hle : (f st).state ≤ b := le_of_not_lt hc
      have h3 : (callAux b true rest (f st)).2.2 = some a := congrArg (fun q => q.2.2) h
      have h2 : x :: (callAux b true rest (f st)).2.1 = tr := congrArg (fun q => q.2.1) h
      obtain ⟨l1, g, l2, he, hpre, hpost, htr⟩ :=
        ih b (f st) (callAux b true rest (f st)).1 (callAux b true rest (f st)).2.1 a hle
          (by rw [← h3])
      refine ⟨(x, f) :: l1, g, l2, by simp [he], ?_, ?_, ?_⟩
      · simpa [runOps, List.foldl_cons] using hpre
      · simpa [runOps, List.foldl_cons] using hpost
      · rw [← h2, htr]; simp

/-- Claim C9: for `VectorHelper::call` over any range and any operation: if
the passed status is already above the `Bound` severity when the traversal
starts, the operation is invoked on every element of the range and the
traversal returns `end` (it never stops early); early return at an element
can occur only when the status was within the bound on entry (both at the
start of the traversal and just before that element) and that element's
invocation escalated it above the bound. -/
theorem claim9_vector_call {α : Type} (bound : Fin 4) (l : List (α × LayerOp))
    (st : LayerStatus) :
    (¬ st.state ≤ bound →
      call bound l st = (runOps l st, l.map Prod.fst, none))
    ∧ (∀ a, (call bound l st).2.2 = some a →
      st.state ≤ bound ∧ ∃ l1 f l2, l = l1 ++ (a, f) :: l2 ∧
        (runOps l1 st).state ≤ bound ∧ bound < (f (runOps l1 st)).state ∧
        (call bound l st).2.1 = l1.map Prod.fst ++ [a]) := by
  constructor
  · intro h
    have : decide (st.state ≤ bound) = false := by simpa using h
    rw [call, this, callAux_not_okay]
  · intro a h
    by_cases hok : st.state ≤ bound
    · have hd : decide (st.state ≤ bound) = true := by simpa using hok
      rw [call, hd] at h
      obtain ⟨l1, f, l2, he, hpre, hpost, htr⟩ :=
        callAux_some_split l bound st (callAux bound true l st).1
          (callAux bound true l st).2.1 a hok (by rw [← h])
      refine ⟨hok, l1, f, l2, he, hpre, hpost, ?_⟩
      rw [call, hd]
      exact htr
    · exfalso
      have hd : decide (st.state ≤ bound) = false := by simpa using hok
      rw [call, hd] at h
      exact callAux_some_okay l bound st a h

/-- Witness for C9: a status already at Error is passed through a one-element
range without early return; a bounded status escalated by the element causes
the early return with the escalation recorded. -/
theorem claim9_witness :
    (call 1 [((0 : Nat), opId)] (LayerStatus.mk 2 "x")
      = (runOps [((0 : Nat), opId)] (LayerStatus.mk 2 "x"),
         [((0 : Nat), opId)].map Prod.fst, none))
    ∧ (LayerStatus.new.state ≤ 1 ∧ ∃ l1 f l2,
        [((0 : Nat), opBoom)] = l1 ++ ((0 : Nat), f) :: l2 ∧
        (runOps l1 LayerStatus.new).state ≤ 1 ∧
        (1 : Fin 4) < (f (runOps l1 LayerStatus.new)).state ∧
        (call 1 [((0 : Nat), opBoom)] LayerStatus.new).2.1 = l1.map Prod.fst ++ [0]) :=
  ⟨(claim9_vector_call 1 [((0 : Nat), opId)] (LayerStatus.mk 2 "x")).1 (by decide),
   (claim9_vector_call 1 [((0 : Nat), opBoom)] LayerStatus.new).2 0 (by decide)⟩

theorem bringupFwd_some (fs : List LayerOp) : ∀ (n : Nat) (st st1 : LayerStatus)
    (k : Nat) (tr : List Nat),
    bringupFwd (tagOps n fs) st = (st1, some k, tr) →
    tr = idxList n (k + 1 - n) ∧ n ≤ k ∧ k < n + fs.length := by
  induction fs with
  | nil => intro n st st1 k tr h; simp [tagOps, bringupFwd] at h
  | cons f fs ih =>
    intro n st st1 k tr h
    rw [tagOps, bringupFwd] at h
    by_cases hc : (1 : Fin 4) < (f st).state
    · rw [if_pos hc] at h
      obtain rfl : n = k := Option.some.inj (congrArg (fun q => q.2.1) h)
      have h3 : [n] = tr := congrArg (fun q => q.2.2) h
      refine ⟨?_, le_refl n, by simp⟩
      rw [← h3]
      have : n + 1 - n = 1 := by omega
      simp [this, idxList]
    · rw [if_neg hc] at h
      have h2 : (bringupFwd (tagOps (n + 1) fs) (f st)).2.1 = some k :=
        congrArg (fun q => q.2.1) h
      have h3 : n :: (bringupFwd (tagOps (n + 1) fs) (f st)).2.2 = tr :=
        congrArg (fun q => q.2.2) h
      obtain ⟨htr, hnk, hk⟩ := ih (n + 1) (f st)
        (bringupFwd (tagOps (n + 1) fs) (f st)).1 k
        (bringupFwd (tagOps (n + 1) fs) (f st)).2.2 (by rw [← h2])
      refine ⟨?_, by omega, by simp; omega⟩
      rw [← h3, htr]
      have e1 : k + 1 - n = (k + 1 - (n + 1)) + 1 := by omega
      rw [e1, idxList]

theorem callAux_tagOps_some (fs : List LayerOp) : ∀ (b : Fin 4) (n : Nat)
    (st st1 : LayerStatus) (k : Nat) (tr : List Nat),
    st.state ≤ b →
    callAux b true (tagOps n fs) st = (st1, tr, some k) →
    tr = idxList n (k + 1 - n) ∧ n ≤ k ∧ k < n + fs.length := by
  induction fs with
  | nil => intro b n st st1 k tr _ h; simp [tagOps, callAux] at h
  | cons f fs ih =>
    intro b n st st1 k tr hst h
    rw [tagOps, callAux] at h
    by_cases hc : b < (f st).state
    · rw [if_pos ⟨rfl, hc⟩] at h
      obtain rfl : n = k := Option.some.inj (congrArg (fun q => q.2.2) h)
      have h3 : [n] = tr := congrArg (fun q => q.2.1) h
      refine ⟨?_, le_refl n, by simp⟩
      rw [← h3]
      have : n + 1 - n = 1 := by omega
      simp [this, idxList]
    · rw [if_neg (fun hand => hc hand.2)] at h
      have hle : (f st).state ≤ b := le_of_not_lt hc
      have h2 : (callAux b true (tagOps (n + 1) fs) (f st)).2.2 = some k :=
        congrArg (fun q => q.2.2) h
      have h3 : n :: (callAux b true (tagOps (n + 1) fs) (f st)).2.1 = tr :=
        congrArg (fun q => q.2.1) h
      obtain ⟨htr, hnk, hk⟩ := ih b (n + 1) (f st)
        (callAux b true (tagOps (n + 1) fs) (f st)).1 k
        (callAux b true (tagOps (n + 1) fs) (f st)).2.1 hle (by rw [← h2])
      refine ⟨?_, by omega, by simp; omega⟩
      rw [← h3, htr]
      have e1 : k + 1 - n = (k + 1 - (n + 1)) + 1 := by omega
      rw [e1, idxList]

theorem call_unbounded_trace {α : Type} (l : List (α × LayerOp)) (st : LayerStatus) :
    (call 3 l st).2.1 = l.map Prod.fst := by
  have hd : decide (st.state ≤ (3 : Fin 4)) = true := by
    have : ∀ x : Fin 4, x ≤ 3 := by decide
    simpa using this st.state
  rw [call, hd, callAux_unbounded]

/-- Claim C1: if `LayerStack::init` brings up children in forward order and
child `k` escalates the status above Warn, then before `init` returns:
`shutdown` has been invoked exactly once on every child with index `≤ k-1`,
in reverse order, with a throwaway status (the caller's status is exactly the
forward phase result); `init` is never invoked on any child with index `> k`;
and `run_end` is left pointing at the failing child `k`. The event trace is
exactly `init 0, ..., init k, shutdown (k-1), ..., shutdown 0`. -/
theorem claim1_bringup_unwind (layers : List Child) (st st1 : LayerStatus)
    (k : Nat) (tr1 : List Nat)
    (h : bringupFwd (tagOps 0 (layers.map Child.initOp)) st = (st1, some k, tr1)) :
    stackInit layers st
      = (st1, k, (idxList 0 (k + 1)).map Ev.initE
          ++ ((idxList 0 k).reverse).map Ev.shutdownE) := by
  obtain ⟨htr, -, hk⟩ := bringupFwd_some (layers.map Child.initOp) 0 st st1 k tr1 h
  simp only [Nat.sub_zero] at htr
  have hk2 : k ≤ (layers.map Child.shutdownOp).length := by
    simp only [List.length_map] at hk ⊢; omega
  unfold stackInit
  rw [h]
  have huw : (call 3 (((tagOps 0 (layers.map Child.shutdownOp)).take k).reverse)
      LayerStatus.new).2.1 = (idxList 0 k).reverse := by
    rw [call_unbounded_trace, List.map_reverse, tagOps_take, tagOps_map_fst,
      List.length_take]
    congr 2
    omega
  show (st1, k, tr1.map Ev.initE
      ++ ((call 3 (((tagOps 0 (layers.map Child.shutdownOp)).take k).reverse)
            LayerStatus.new).2.1).map Ev.shutdownE) = _
  rw [huw, htr]

/-- Witness for C1: stack `[ok, badInit, ok]`: init runs on children 0 and 1,
child 1 fails, child 0 is shut down, run_end stays at 1. -/
theorem claim1_witness :
    stackInit [childOk, childBadInit, childOk] LayerStatus.new
      = (LayerStatus.new.error "boom", 1,
         (idxList 0 2).map Ev.initE ++ ((idxList 0 1).reverse).map Ev.shutdownE) :=
  claim1_bringup_unwind [childOk, childBadInit, childOk] LayerStatus.new
    (LayerStatus.new.error "boom") 1 [0, 1] (by decide)

/-- Counterexample to C2 as stated: on the stack `[ok, badRead, ok]` with the
whole stack live, child 1 fails during read; the claim predicts that exactly
the already-read child 0 is halted (trace `read 0, read 1, halt 0, read 2`),
but the source halts from the top of the layer vector down to the failing
child: trace `read 0, read 1, halt 2, halt 1, read 2`. -/
theorem claim2_counterexample :
    (stackRead [childOk, childBadRead, childOk] 3 LayerStatus.new).2
        = [Ev.readE 0, Ev.readE 1, Ev.haltE 2, Ev.haltE 1, Ev.readE 2]
    ∧ ¬ (stackRead [childOk, childBadRead, childOk] 3 LayerStatus.new).2
        = [Ev.readE 0, Ev.readE 1, Ev.haltE 0, Ev.readE 2] := by
  constructor <;> decide

/-- Claim C2 (amended): during `LayerStack::read` over the live prefix
`[begin, run_end)` of length `r`, when the first child `k` escalates the
caller's status above Warn, the stack halts — with a throwaway status — the
children from the END of the full layer vector down to and including the
failing child (indices `n-1 .. k`, in that order), not the already-read
ones; then it calls `read` on each remaining child of the prefix after the
failing one (indices `k+1 .. r-1`) with the same throwaway status escalated
to Error; the caller's status is exactly the status produced by the first
(bounded) read phase, so it reflects only the first fault. -/
theorem claim2_read_unwind (layers : List Child) (r : Nat) (st st1 : LayerStatus)
    (tr1 : List Nat) (k : Nat)
    (hr : r ≤ layers.length)
    (h : call 1 ((tagOps 0 (layers.map Child.readOp)).take r) st = (st1, tr1, some k)) :
    stackRead layers r st
      = (st1, (idxList 0 (k + 1)).map Ev.readE
          ++ ((idxList k (layers.length - k)).reverse).map Ev.haltE
          ++ (idxList (k + 1) (r - (k + 1))).map Ev.readE) := by
  have hok : decide (st.state ≤ (1 : Fin 4)) = true := by
    rcases Bool.eq_false_or_eq_true (decide (st.state ≤ (1 : Fin 4))) with hd | hd
    · exact hd
    · exfalso
      rw [call, hd, callAux_not_okay] at h
      have := congrArg (fun q => q.2.2) h
      simp at this
  have hst : st.state ≤ (1 : Fin 4) := of_decide_eq_true hok
  have h2 : callAux 1 true (tagOps 0 ((layers.map Child.readOp).take r)) st
      = (st1, tr1, some k) := by
    rw [← tagOps_take, ← hok, ← call]
    exact h
  obtain ⟨htr, -, hk⟩ := callAux_tagOps_some ((layers.map Child.readOp).take r)
    1 0 st st1 k tr1 hst h2
  simp only [Nat.sub_zero] at htr
  have hkr : k < r := by
    simp only [List.length_take, List.length_map] at hk
    omega
  unfold stackRead
  rw [h]
  have hhalt : (call 3 (((tagOps 0 (layers.map Child.haltOp)).drop k).reverse)
      LayerStatus.new).2.1 = (idxList k (layers.length - k)).reverse := by
    rw [call_unbounded_trace, List.map_reverse, tagOps_drop, tagOps_map_fst,
      List.length_drop]
    simp only [Nat.zero_add, List.length_map]
  have htail : ∀ om : LayerStatus,
      (call 3 (((tagOps 0 (layers.map Child.readOp)).take r).drop (k + 1)) om).2.1
        = idxList (k + 1) (r - (k + 1)) := by
    intro om
    rw [call_unbounded_trace, tagOps_take, tagOps_drop, tagOps_map_fst,
      List.length_drop, List.length_take]
    simp only [Nat.zero_add, List.length_map]
    congr 1
    omega
  show (st1, tr1.map Ev.readE
      ++ ((call 3 (((tagOps 0 (layers.map Child.haltOp)).drop k).reverse)
            LayerStatus.new).2.1).map Ev.haltE
      ++ ((call 3 (((tagOps 0 (layers.map Child.readOp)).take r).drop (k + 1))
            ((call 3 (((tagOps 0 (layers.map Child.haltOp)).drop k).reverse)
              LayerStatus.new).1.error "")).2.1).map Ev.readE) = _
  rw [hhalt, htail, htr]

/-- Witness for C2 (amended): stack `[ok, badRead, ok]`, live prefix of
length 3; read stops at child 1; halts run on 2 then 1; the tail read runs
on child 2. -/
theorem claim2_witness :
    stackRead [childOk, childBadRead, childOk] 3 LayerStatus.new
      = (LayerStatus.new.error "boom",
         (idxList 0 2).map Ev.readE ++ ((idxList 1 2).reverse).map Ev.haltE
           ++ (idxList 2 1).map Ev.readE) :=
  claim2_read_unwind [childOk, childBadRead, childOk] 3 LayerStatus.new
    (LayerStatus.new.error "boom") [0, 1] 1 (by decide) (by decide)

theorem runBuf_append (tr : List BufOp) : ∀ (bf : Buffer) (op : BufOp),
    runBuf bf (tr ++ [op]) = (runBuf bf tr).bind (fun b2 => bufStep b2 op) := by
  induction tr with
  | nil =>
    intro bf op
    cases h : bufStep bf op <;> simp [runBuf, h]
  | cons o tr ih =>
    intro bf op
    cases h : bufStep bf o with
    | none => simp [runBuf, h]
    | some b2 => simp [runBuf, h, ih]

theorem wslr_append_wr (tr : List BufOp) (b : List Nat) (len : Nat) :
    writesSinceLastRead (tr ++ [BufOp.wr b len]) = true := by
  simp [writesSinceLastRead, List.takeWhile, isRd, isWr]

theorem wslr_append_rd (tr : List BufOp) (len : Nat) :
    writesSinceLastRead (tr ++ [BufOp.rd len]) = false := by
  simp [writesSinceLastRead, List.takeWhile, isRd]

theorem runBuf_inv (s : Nat) (tr : List BufOp) : ∀ st : Buffer,
    runBuf (Buffer.mk0 s) tr = some st →
    st.size = s ∧ (st.empty = true → st.dirty = false)
      ∧ st.dirty = writesSinceLastRead tr := by
  induction tr using List.reverseRecOn with
  | nil =>
    intro st h
    simp only [runBuf, Option.some.injEq] at h
    subst h
    simp [Buffer.mk0, writesSinceLastRead]
  | append_singleton tr op ih =>
    intro st h
    rw [runBuf_append] at h
    cases hr : runBuf (Buffer.mk0 s) tr with
    | none => rw [hr] at h; simp at h
    | some st0 =>
      rw [hr] at h
      simp only [Option.some_bind] at h
      obtain ⟨h1, h2, h3⟩ := ih st0 hr
      cases op with
      | wr b len =>
        by_cases hsz : st0.size > len
        · simp [bufStep, Buffer.write, hsz] at h
        · simp only [bufStep, Buffer.write, if_neg hsz, Option.some.injEq] at h
          subst h
          simp [h1, wslr_append_wr]
      | rd len =>
        by_cases hsz : st0.size > len
        · simp [bufStep, Buffer.read, hsz] at h
        · by_cases hem : st0.empty = true
          · simp only [bufStep, Buffer.read, if_neg hsz, hem, if_true] at h
            simp only [Option.map] at h
            obtain rfl : st0 = st := Option.some.inj h
            exact ⟨h1, h2, by rw [h2 hem, wslr_append_rd]⟩
          · rw [bufStep, Buffer.read, if_neg hsz, if_neg hem] at h
            simp only [Option.map] at h
            obtain rfl :
                (⟨st0.size, st0.bdata, st0.empty, false⟩ : Buffer) = st :=
              Option.some.inj h
            exact ⟨h1, by simp, by rw [wslr_append_rd]⟩

/-- Claim C6: for a Buffer of size `s`: `write(b, len)` with `len ≥ s`
copies exactly the first `s` bytes of `b`, sets `dirty` and clears `empty`;
a subsequent `read(out, len2)` with `len2 ≥ s` copies those `s` bytes into
`out`, returns `true` iff some write occurred since the last read, and
clears `dirty`; `read` on a buffer never written since creation returns
`false` without copying anything. -/
theorem claim6_buffer (s : Nat) :
    (∀ (bf : Buffer) (b : List Nat) (len : Nat), bf.size ≤ len →
      bf.write b len = some ⟨bf.size, b.take bf.size, false, true⟩)
    ∧ (∀ (tr : List BufOp) (st : Buffer), runBuf (Buffer.mk0 s) tr = some st →
      ∀ (out : List Nat) (len : Nat), s ≤ len →
        (st.read out len).map (fun q => q.2.2) = some (writesSinceLastRead tr))
    ∧ (∀ (pre : List BufOp) (b : List Nat) (lw : Nat) (st : Buffer),
      runBuf (Buffer.mk0 s) (pre ++ [BufOp.wr b lw]) = some st →
      ∀ (out : List Nat) (len : Nat), s ≤ len →
        st.read out len
          = some (⟨s, b.take s, false, false⟩, b.take s ++ out.drop s, true))
    ∧ (∀ (out : List Nat) (len : Nat), s ≤ len →
      (Buffer.mk0 s).read out len = some (Buffer.mk0 s, out, false)) := by
  refine ⟨?_, ?_, ?_, ?_⟩
  · intro bf b len hlen
    rw [Buffer.write, if_neg (not_lt.mpr hlen)]
  · intro tr st h out len hlen
    obtain ⟨h1, h2, h3⟩ := runBuf_inv s tr st h
    have hsz : ¬ st.size > len := not_lt.mpr (h1 ▸ hlen)
    by_cases hem : st.empty = true
    · rw [Buffer.read, if_neg hsz, if_pos hem]
      simp [← h3, h2 hem]
    · rw [Buffer.read, if_neg hsz, if_neg hem]
      simp [← h3]
  · intro pre b lw st h out len hlen
    rw [runBuf_append] at h
    cases hr : runBuf (Buffer.mk0 s) pre with
    | none => rw [hr] at h; simp at h
    | some st0 =>
      rw [hr] at h
      simp only [Option.some_bind] at h
      obtain ⟨h1, -, -⟩ := runBuf_inv s pre st0 hr
      by_cases hsz : st0.size > lw
      · simp [bufStep, Buffer.write, hsz] at h
      · simp only [bufStep, Buffer.write, if_neg hsz, Option.some.injEq] at h
        subst h
        rw [Buffer.read]
        rw [if_neg (by simpa [h1] using not_lt.mpr hlen)]
        simp [h1, List.take_take]
  · intro out len hlen
    rw [Buffer.read, if_neg (by simpa [Buffer.mk0] using not_lt.mpr hlen)]
    simp [Buffer.mk0]

/-- Witness for C6: size-2 buffer; write `[5,6,7]` (3 bytes available),
read back `[5,6]` with the dirty flag; fresh read reports no data. -/
theorem claim6_witness :
    ((Buffer.mk0 2).write [5, 6, 7] 3 = some ⟨2, [5, 6], false, true⟩)
    ∧ (((⟨2, [5, 6], false, true⟩ : Buffer).read [9, 9] 2).map (fun q => q.2.2)
        = some (writesSinceLastRead [BufOp.wr [5, 6] 2]))
    ∧ ((⟨2, [5, 6], false, true⟩ : Buffer).read [9, 9] 2
        = some (⟨2, [5, 6], false, false⟩, [5, 6], true))
    ∧ ((Buffer.mk0 2).read [9, 9] 2 = some (Buffer.mk0 2, [9, 9], false)) :=
  ⟨(claim6_buffer 2).1 (Buffer.mk0 2) [5, 6, 7] 3 (by decide),
   (claim6_buffer 2).2.1 [BufOp.wr [5, 6] 2] ⟨2, [5, 6], false, true⟩ (by decide)
     [9, 9] 2 (by decide),
   (claim6_buffer 2).2.2.1 [] [5, 6] 2 ⟨2, [5, 6], false, true⟩ (by decide)
     [9, 9] 2 (by decide),
   (claim6_buffer 2).2.2.2 [9, 9] 2 (by decide)⟩

/-- Claim C4 (code evaluated at the failing input): pdo.cpp line 102
computes `com_changed` from the MAPPING index (`check_com_changed(dict,
map_index)`). With a dictionary whose communication subs 0..6 (at 0x1800)
all exist with empty init_vals and whose mapping sub 0 (at 0x1A00) has a
non-empty init_val, the code yields `com_changed = true` although no
communication sub-entry 0..6 at the communication index has a non-empty
init_val — contradicting the claim, spec §4.5 step 3, the parameter name
`com_id` and the comment "check if com parameter has to be set". -/
theorem claim4_com_changed_bug :
    parse_com_changed exDict 0x1800 0x1A00 = true
    ∧ check_com_changed exDict 0x1800 = false := by
  exact ⟨by decide, by decide⟩

theorem pdoMapLoop_spec (ws : List Nat) : ∀ (dlc : Nat) (acc : List Nat)
    (d : Nat) (sizes : List Nat),
    dlc ≤ 8 →
    pdoMapLoop ws dlc acc = some (d, sizes) →
    sizes = acc.reverse ++ ws.map (fun w => w % 256 / 8)
    ∧ d = dlc + (ws.map (fun w => w % 256 / 8)).sum
    ∧ d ≤ 8
    ∧ ∀ k, dlc + ((ws.map (fun w => w % 256 / 8)).take k).sum ≤ 8 := by
  induction ws with
  | nil =>
    intro dlc acc d sizes hd h
    simp only [pdoMapLoop, Option.some.injEq, Prod.mk.injEq] at h
    obtain ⟨rfl, hs⟩ := h
    refine ⟨by simp [hs.symm], by simp, hd, ?_⟩
    intro k
    simpa using hd
  | cons w ws ih =>
    intro dlc acc d sizes hd h
    rw [pdoMapLoop] at h
    by_cases hfit : dlc + w % 256 / 8 ≤ 8
    · rw [if_pos hfit] at h
      obtain ⟨hs, hsum, hb, hpre⟩ := ih (dlc + w % 256 / 8) (w % 256 / 8 :: acc) d sizes hfit h
      refine ⟨by simp [hs], by simp [hsum]; omega, hb, ?_⟩
      intro k
      cases k with
      | zero => simpa using hd
      | succ k =>
        have := hpre k
        simp only [List.map_cons, List.take_succ_cons, List.sum_cons]
        omega
    · rw [if_neg hfit] at h
      simp at h

/-- Claim C7: for every PDO successfully constructed by
`parse_and_set_mapping` with `1 ≤ map_num ≤ 0x40`, `frame.dlc` equals the
sum of the sizes of its allocated buffers, and this sum never exceeds 8 at
any accumulation step (every prefix sum of the buffer sizes is ≤ 8, which
is what the per-step assertion `frame.dlc <= 8` checks; a mapping whose
sizes would exceed 8 fails the assertion and no PDO is constructed). -/
theorem claim7_dlc_bound (words : List Nat) (d : Nat) (sizes : List Nat)
    (h1 : 1 ≤ words.length) (h2 : words.length ≤ 0x40)
    (h : parseMappingDlc words = some (d, sizes)) :
    d = sizes.sum ∧ d ≤ 8 ∧ ∀ k, (sizes.take k).sum ≤ 8 := by
  obtain ⟨hs, hsum, hb, hpre⟩ := pdoMapLoop_spec words 0 [] d sizes (by omega) h
  subst hs
  refine ⟨by simpa using hsum, hb, ?_⟩
  intro k
  have := hpre k
  simpa using this

/-- Witness for C7: two mapping words with lengths 16 and 8 bits give
buffers of 2 and 1 bytes; dlc 3 = 2 + 1 and every prefix stays within 8. -/
theorem claim7_witness :
    3 = [2, 1].sum ∧ 3 ≤ 8 ∧ ([2, 1].take 1).sum ≤ 8 :=
  ⟨(claim7_dlc_bound [16, 8] 3 [2, 1] (by decide) (by decide) (by decide)).1,
   (claim7_dlc_bound [16, 8] 3 [2, 1] (by decide) (by decide) (by decide)).2.1,
   (claim7_dlc_bound [16, 8] 3 [2, 1] (by decide) (by decide) (by decide)).2.2 1⟩

/-- Claim C8: `TPDO::init` reads the device's transmission_type; iff the
value is in [2, 240] it writes the value 1 back to the transmission_type
entry; any uint8 value outside [2, 240] (including 0, 1, 0xFC, 0xFD, 0xFE,
0xFF) leaves the entry unmodified. -/
theorem claim8_tpdo_coerce (v : Nat) (hv : v < 256) :
    (tpdoCoerceTT v = some 1 ↔ 2 ≤ v ∧ v ≤ 240)
    ∧ (v < 2 ∨ 240 < v → tpdoCoerceTT v = none) := by
  by_cases hc : 1 < v ∧ v ≤ 240
  · rw [tpdoCoerceTT, if_pos hc]
    refine ⟨⟨fun _ => ⟨by omega, hc.2⟩, fun _ => rfl⟩, fun hout => ?_⟩
    exfalso
    omega
  · rw [tpdoCoerceTT, if_neg hc]
    refine ⟨⟨fun h => by simp at h, fun h => ?_⟩, fun hout => rfl⟩
    exact absurd ⟨by omega, h.2⟩ hc

/-- Witness for C8: value 5 (the S5 scenario) is coerced: 1 is written
back; value 0xFC is left alone. -/
theorem claim8_witness :
    (tpdoCoerceTT 5 = some 1 ↔ 2 ≤ 5 ∧ 5 ≤ 240)
    ∧ tpdoCoerceTT 0xFC = none :=
  ⟨(claim8_tpdo_coerce 5 (by decide)).1,
   (claim8_tpdo_coerce 0xFC (by decide)).2 (by decide)⟩

theorem rpdoSyncIter_cyclic (N : Nat) (h1 : 1 ≤ N) (h2 : N ≤ 240) :
    ∀ k, k ≤ N + 2 →
    rpdoSyncIter ⟨N, (N : Int) + 2⟩ k = ⟨N, (N : Int) + 2 - k⟩ := by
  intro k
  induction k with
  | zero => intro _; simp [rpdoSyncIter]
  | succ k ih =>
    intro hk
    rw [rpdoSyncIter, ih (by omega)]
    unfold rpdoSync
    rw [if_pos (Or.inl ⟨h1, h2⟩)]
    rw [if_pos (by omega : (0 : Int) < (N : Int) + 2 - k)]
    have : (N : Int) + 2 - k - 1 = (N : Int) + 2 - ((k : Int) + 1) := by ring
    simp [this]

/-- Claim C5 (amended): for an RPDO with cyclic transmission type N in
[1, 240] whose timeout counter was last reset to N+2 by a received frame,
the first N+2 frameless SYNC read cycles only count the timeout down and
leave their status untouched; the warn fires on the NEXT call — the
(N+3)-rd frameless read — which escalates its status to Warn with reason
"RPDO timeout". With transmission_type = 1 this is the fourth read after
the last frame (the claim's own S4 clause). -/
theorem claim5_rpdo_timeout (N : Nat) (h1 : 1 ≤ N) (h2 : N ≤ 240) :
    (∀ k, k < N + 2 → rpdoSyncStatus ⟨N, (N : Int) + 2⟩ k = LayerStatus.new)
    ∧ rpdoSyncStatus ⟨N, (N : Int) + 2⟩ (N + 2)
        = LayerStatus.new.warn "RPDO timeout" := by
  constructor
  · intro k hk
    rw [rpdoSyncStatus, rpdoSyncIter_cyclic N h1 h2 k (by omega)]
    unfold rpdoSync
    rw [if_pos (Or.inl ⟨h1, h2⟩)]
    rw [if_pos (by omega : (0 : Int) < (N : Int) + 2 - k)]
  · rw [rpdoSyncStatus, rpdoSyncIter_cyclic N h1 h2 (N + 2) le_rfl]
    unfold rpdoSync
    rw [if_pos (Or.inl ⟨h1, h2⟩)]
    have hz : (N : Int) + 2 - ((N + 2 : Nat) : Int) = 0 := by push_cast; ring
    rw [show ((⟨N, (N : Int) + 2 - ((N + 2 : Nat) : Int)⟩ : RPDOState).timeout)
        = 0 from hz]
    rw [if_neg (by omega), if_pos rfl]

/-- Counterexample to C5 as stated: transmission_type N = 1, timeout last
reset to N+2 = 3 by a frame. The claim asserts the status passed to sync
escalates to Warn within N+2 = 3 consecutive frameless sync calls, but
after 3 calls every status is still fresh — both with a fresh status per
call and with a single threaded status — and the warn only fires on the
4th call (the claim's own "fourth read" clause, which the code does meet). -/
theorem claim5_counterexample :
    rpdoSyncStatus ⟨1, 3⟩ 0 = LayerStatus.new
    ∧ rpdoSyncStatus ⟨1, 3⟩ 1 = LayerStatus.new
    ∧ rpdoSyncStatus ⟨1, 3⟩ 2 = LayerStatus.new
    ∧ (rpdoSyncN 3 ⟨1, 3⟩ LayerStatus.new).2 = LayerStatus.new
    ∧ rpdoSyncStatus ⟨1, 3⟩ 3 = LayerStatus.new.warn "RPDO timeout" := by
  refine ⟨?_, ?_, ?_, ?_, ?_⟩ <;> decide

/-- Witness for C5 (amended): N = 1 — the second read leaves its status
fresh, and the fourth read (k = N + 2 = 3) warns "RPDO timeout". -/
theorem claim5_witness :
    rpdoSyncStatus ⟨1, ((1 : Nat) : Int) + 2⟩ 1 = LayerStatus.new
    ∧ rpdoSyncStatus ⟨1, ((1 : Nat) : Int) + 2⟩ (1 + 2)
        = LayerStatus.new.warn "RPDO timeout" :=
  ⟨(claim5_rpdo_timeout 1 (by decide) (by decide)).1 1 (by omega),
   (claim5_rpdo_timeout 1 (by decide) (by decide)).2⟩

theorem handleFrameLoop_getD (data : List Nat) (dlc : Nat) (bufs : List Buffer) :
    ∀ (off0 : Nat) (i : Nat) (dflt : Buffer), i < bufs.length →
    ((handleFrameLoop data dlc bufs off0).1).getD i dflt
      = (if hfOffset dlc ((bufs.take i).map Buffer.size) off0
            + (bufs.getD i dflt).size ≤ dlc
         then ⟨(bufs.getD i dflt).size,
               (data.drop (hfOffset dlc ((bufs.take i).map Buffer.size) off0)).take
                 (bufs.getD i dflt).size, false, true⟩
         else bufs.getD i dflt) := by
  induction bufs with
  | nil => intro off0 i dflt hi; simp at hi
  | cons b rest ih =>
    intro off0 i dflt hi
    cases i with
    | zero =>
      by_cases hfit : off0 + b.size ≤ dlc
      · simp only [handleFrameLoop, if_pos hfit, List.getD_cons_zero,
          List.take_zero, List.map_nil]
        rw [Buffer.write, if_neg (lt_irrefl _)]
        simp [hfOffset, hfit]
      · simp only [handleFrameLoop, if_neg hfit, List.getD_cons_zero,
          List.take_zero, List.map_nil]
        simp [hfOffset, hfit]
    | succ i =>
      have hi2 : i < rest.length := by simpa using hi
      by_cases hfit : off0 + b.size ≤ dlc
      · simp only [handleFrameLoop, if_pos hfit, List.getD_cons_succ,
          List.take_succ_cons, List.map_cons]
        rw [ih (off0 + b.size) i dflt hi2]
        simp [hfOffset, hfit]
      · simp only [handleFrameLoop, if_neg hfit, List.getD_cons_succ,
          List.take_succ_cons, List.map_cons]
        rw [ih off0 i dflt hi2]
        simp [hfOffset, hfit]

/-- Counterexample to C10 as stated: buffers of sizes [2, 4, 1], incoming
frame dlc = 3. The claim says exactly the maximal fitting prefix (here only
the first buffer) is written and every later buffer is left unchanged; but
the code skips the 4-byte buffer without advancing the offset and then
still writes the 1-byte buffer from offset 2 — so the written set is not a
prefix and a later buffer changed contents and flags. -/
theorem claim10_counterexample :
    (handleFrameLoop [10, 11, 12, 13, 14, 15, 16, 17] 3
        [Buffer.mk0 2, Buffer.mk0 4, Buffer.mk0 1] 0).1
      = [⟨2, [10, 11], false, true⟩, Buffer.mk0 4, ⟨1, [12], false, true⟩]
    ∧ ¬ (handleFrameLoop [10, 11, 12, 13, 14, 15, 16, 17] 3
        [Buffer.mk0 2, Buffer.mk0 4, Buffer.mk0 1] 0).1
      = [⟨2, [10, 11], false, true⟩, Buffer.mk0 4, Buffer.mk0 1] := by
  exact ⟨by decide, by decide⟩

/-- Claim C10 (amended): `RPDO::handleFrame`, given a frame whose dlc is
smaller than the total mapped buffer size, writes into exactly those
buffers whose greedy running offset (advanced only across buffers actually
written) plus own size still fits within the frame's dlc — not necessarily
a prefix: a buffer that does not fit is skipped with the offset unchanged,
so a later smaller buffer may still be written from that same offset;
skipped buffers keep their contents and flags; no error is signalled to any
caller or status object (the embedded function has no status input or
error output); and the timeout counter is still reset under the mutex
according to the transmission type (`transmission_type + 2` for the cyclic
types of the claim). -/
theorem claim10_handleFrame (data : List Nat) (dlc : Nat) (bufs : List Buffer)
    (i : Nat) (dflt : Buffer) (hi : i < bufs.length)
    (s : RPDOState) (isRtr : Bool) (hc1 : 1 ≤ s.transmission_type)
    (hc2 : s.transmission_type ≤ 240) :
    (((rpdoHandleFrame s isRtr bufs data dlc).1).getD i dflt
      = (if hfOffset dlc ((bufs.take i).map Buffer.size) 0
            + (bufs.getD i dflt).size ≤ dlc
         then ⟨(bufs.getD i dflt).size,
               (data.drop (hfOffset dlc ((bufs.take i).map Buffer.size) 0)).take
                 (bufs.getD i dflt).size, false, true⟩
         else bufs.getD i dflt))
    ∧ (rpdoHandleFrame s isRtr bufs data dlc).2
        = { s with timeout := (s.transmission_type : Int) + 2 } := by
  constructor
  · show ((handleFrameLoop data dlc bufs 0).1).getD i dflt = _
    exact handleFrameLoop_getD data dlc bufs 0 i dflt hi
  · show (if 1 ≤ s.transmission_type ∧ s.transmission_type ≤ 240 then
        { s with timeout := (s.transmission_type : Int) + 2 }
      else if s.transmission_type = 0xFC ∨ s.transmission_type = 0xFD then
        if isRtr then { s with timeout := 3 } else s
      else s) = { s with timeout := (s.transmission_type : Int) + 2 }
    rw [if_pos ⟨hc1, hc2⟩]

/-- Witness for C10 (amended): buffers [2, 4, 1], dlc 3, cyclic type 1:
the third buffer (after the skipped one) is written with byte 12 from
offset 2, and the timeout is reset to 3. -/
theorem claim10_witness :
    ((rpdoHandleFrame ⟨1, 0⟩ false [Buffer.mk0 2, Buffer.mk0 4, Buffer.mk0 1]
        [10, 11, 12, 13, 14, 15, 16, 17] 3).1).getD 2 (Buffer.mk0 0)
      = ⟨1, [12], false, true⟩
    ∧ (rpdoHandleFrame ⟨1, 0⟩ false [Buffer.mk0 2, Buffer.mk0 4, Buffer.mk0 1]
        [10, 11, 12, 13, 14, 15, 16, 17] 3).2 = ⟨1, 3⟩ := by
  have h := claim10_handleFrame [10, 11, 12, 13, 14, 15, 16, 17] 3
    [Buffer.mk0 2, Buffer.mk0 4, Buffer.mk0 1] 2 (Buffer.mk0 0) (by decide)
    ⟨1, 0⟩ false (by decide) (by decide)
  exact ⟨by rw [h.1]; decide, by rw [h.2]; decide⟩

end Canopen
